import Mathlib

/-!
Verification of gh-pr-release (src/gh_pr_release/gh_pr_release.py and
src/gh_pr_release/cli.py) against its natural-language specification.

Modelling conventions (shallow embedding):
* Python strings are modelled as `List Char`.  The git and GitHub
  collaborators (command output, merge-base queries, the PR store) are
  parameters of the embedded functions: each function receives the raw
  textual output / lookup functions the Python code would obtain from them.
* `re` character classes are modelled over their ASCII meaning
  (`\s` = space, tab, newline, carriage return, vertical tab, form feed;
  `\d` = '0'..'9').
* Fallible Python code (exceptions such as `GitCommandError` or the
  `ValueError` of tuple unpacking) is modelled with `Option`/`Except`:
  `none` / `.error` is an escaped exception.
-/

/-- ASCII model of Python's regex class `\s`. -/
def isWsChar (c : Char) : Bool :=
  c = ' ' || c = '\t' || c = '\n' || c = '\r' || c = Char.ofNat 11 || c = Char.ofNat 12

/-- ASCII model of Python's regex class `\d`. -/
def isDigitChar (c : Char) : Bool :=
  '0' ≤ c && c ≤ '9'

/-- Numeric value of a decimal digit character. -/
def digitVal (c : Char) : Nat := c.toNat - 48

/-- Decimal digit character for a value `d < 10`. -/
def digitChar (d : Nat) : Char := Char.ofNat (48 + d)

/-- Fuel-driven accumulator loop producing the decimal digits of a number,
most significant first (the digits Python's `f"{n}"` interpolation emits). -/
def natDigitsCore : Nat → Nat → List Char → List Char
  | 0, _, acc => acc
  | fuel + 1, n, acc =>
    if n < 10 then digitChar n :: acc
    else natDigitsCore fuel (n / 10) (digitChar (n % 10) :: acc)

/-- Decimal representation of `n`, as rendered by Python string formatting. -/
def natDigits (n : Nat) : List Char := natDigitsCore (n + 1) n []

/-- Drop leading whitespace (`str.lstrip()` over the ASCII `\s` class). -/
def dropWs : List Char → List Char
  | [] => []
  | c :: r => if isWsChar c then dropWs r else c :: r

/-- Longest non-whitespace run at the front of a string. -/
def takeNonWs : List Char → List Char
  | [] => []
  | c :: r => if isWsChar c then [] else c :: takeNonWs r

/-- Remainder after the longest non-whitespace run at the front. -/
def dropNonWs : List Char → List Char
  | [] => []
  | c :: r => if isWsChar c then c :: r else dropNonWs r

/-- Fuel-driven worker for `splitWs`; the fuel bounds the number of tokens. -/
def splitWsCore : Nat → List Char → List (List Char)
  | 0, _ => []
  | fuel + 1, s =>
    match dropWs s with
    | [] => []
    | c :: r => (c :: takeNonWs r) :: splitWsCore fuel (dropNonWs r)

/-- Python `str.split()` with no argument: split on runs of whitespace,
discarding empty fields. -/
def splitWs (s : List Char) : List (List Char) := splitWsCore (s.length + 1) s

/-- Python `str.split("\n")`: split on every newline, keeping empty fields. -/
def splitLines : List Char → List (List Char)
  | [] => [[]]
  | c :: r =>
    if c = '\n' then [] :: splitLines r
    else
      match splitLines r with
      | t :: ts => (c :: t) :: ts
      | [] => [[c]]

/-- Python `str.strip()`: remove leading and trailing whitespace. -/
def pyStrip (s : List Char) : List Char := ((dropWs s).reverse |> dropWs).reverse

/-- Concatenation of a list of strings (the value accumulated by the
`StringIO` buffer in `pull_request_description`). -/
def joinAll : List (List Char) → List Char
  | [] => []
  | l :: r => l ++ joinAll r

/-- Boolean string-prefix test (used only in specification statements). -/
def hasPre : List Char → List Char → Bool
  | [], _ => true
  | _ :: _, [] => false
  | a :: p, b :: s => if a = b then hasPre p s else false

/-!
## Config resolver

`get_config(cmd, key, default=None, gh_pr_release=True)` from
gh_pr_release.py.  The two configuration sources (`git config --file
.gh-pr-release` and plain `git config --get`) are modelled as lookup
functions returning `none` when the underlying git command fails
(`GitCommandError`).  The result is `Except Unit (List Char)`:
`.error ()` models the exception escaping `get_config`.
-/

def get_config (localCfg gitCfg : List Char → Option (List Char))
    (key : List Char) (default : Option (List Char)) (gh_pr_release : Bool) :
    Except Unit (List Char) :=
  match (if gh_pr_release then localCfg key else none) with
  | some v => .ok v
  | none =>
    match gitCfg key with
    | some v => .ok v
    | none =>
      -- Python: `if default: return default; raise` — the truthiness test
      -- rejects both `None` and the empty string.
      match default with
      | some d => if d = [] then .error () else .ok d
      | none => .error ()

/-!
## Data model and release-PR locator
-/

/-- The capability set of a GitHub pull-request object that the program
reads: number, title, author login, creation time, merged flag. -/
structure PullRequest where
  number : Nat
  title : List Char
  user_login : List Char
  created_at : Nat
  merged : Bool
deriving DecidableEq

/-- `release_pull_request` from gh_pr_release.py.  `queryResult` is the
paginated result of `gh_repo.get_pulls(state="open", head=..., base=...)`,
i.e. the open pull requests matching the query; `totalCount` is its
length.  The function returns the first element iff the count is exactly
one. -/
def release_pull_request (queryResult : List PullRequest) : Option PullRequest :=
  if queryResult.length = 1 then queryResult.head? else none

/-- Claim C7 — `get_config` consults the repo-local `.gh-pr-release` file
first (when the flag is set), then the general git configuration, then a
non-empty supplied default; with no source and no default it fails. -/
theorem get_config_priority_and_failure
    (localCfg gitCfg : List Char → Option (List Char)) (key : List Char) :
    (∀ v default flag, flag = true → localCfg key = some v →
      get_config localCfg gitCfg key default flag = .ok v) ∧
    (∀ v default flag, (flag = false ∨ localCfg key = none) → gitCfg key = some v →
      get_config localCfg gitCfg key default flag = .ok v) ∧
    (∀ d flag, (flag = false ∨ localCfg key = none) → gitCfg key = none → d ≠ [] →
      get_config localCfg gitCfg key (some d) flag = .ok d) ∧
    (∀ flag, (flag = false ∨ localCfg key = none) → gitCfg key = none →
      get_config localCfg gitCfg key none flag = .error ()) := by
  refine ⟨?_, ?_, ?_, ?_⟩
  · intro v default flag hflag hloc
    subst hflag
    simp [get_config, hloc]
  · intro v default flag hl hgit
    rcases hl with hl | hl <;> subst_vars <;> simp [get_config, hgit]
    cases h : localCfg key with
    | none => simp
    | some _ => exact absurd h (by simp [hl])
  · intro d flag hl hgit hd
    rcases hl with hl | hl
    · subst hl; simp [get_config, hgit, hd]
    · cases flag <;> simp [get_config, hl, hgit, hd]
  · intro flag hl hgit
    rcases hl with hl | hl
    · subst hl; simp [get_config, hgit]
    · cases flag <;> simp [get_config, hl, hgit]

/-- Witness for C7 at concrete configuration tables. -/
theorem get_config_priority_and_failure_witness :
    (get_config (fun _ => some (['l'])) (fun _ => some (['g'])) (['k']) none true
      = .ok (['l'])) ∧
    (get_config (fun _ => none) (fun _ => some (['g'])) (['k']) none true
      = .ok (['g'])) ∧
    (get_config (fun _ => none) (fun _ => none) (['k']) (some (['d'])) true
      = .ok (['d'])) ∧
    (get_config (fun _ => none) (fun _ => none) (['k']) none true
      = .error ()) := by
  refine ⟨?_, ?_, ?_, ?_⟩
  · exact (get_config_priority_and_failure (fun _ => some (['l']))
      (fun _ => some (['g'])) (['k'])).1 ['l'] none true rfl rfl
  · exact (get_config_priority_and_failure (fun _ => none)
      (fun _ => some (['g'])) (['k'])).2.1 ['g'] none true (Or.inr rfl) rfl
  · exact (get_config_priority_and_failure (fun _ => none)
      (fun _ => none) (['k'])).2.2.1 ['d'] true (Or.inr rfl) rfl (by decide)
  · exact (get_config_priority_and_failure (fun _ => none)
      (fun _ => none) (['k'])).2.2.2 true (Or.inr rfl) rfl

/-- Claim C10 — an empty-string default is not used as a fallback: when both
configuration lookups fail, `get_config` with default `""` raises instead of
returning `""`; only a non-empty default is returned. -/
theorem get_config_empty_default_raises
    (localCfg gitCfg : List Char → Option (List Char)) (key : List Char)
    (flag : Bool) (hl : flag = false ∨ localCfg key = none)
    (hgit : gitCfg key = none) :
    get_config localCfg gitCfg key (some []) flag = .error () ∧
    (∀ d, d ≠ [] → get_config localCfg gitCfg key (some d) flag = .ok d) := by
  constructor
  · rcases hl with hl | hl
    · subst hl; simp [get_config, hgit]
    · cases flag <;> simp [get_config, hl, hgit]
  · intro d hd
    rcases hl with hl | hl
    · subst hl; simp [get_config, hgit, hd]
    · cases flag <;> simp [get_config, hl, hgit, hd]

/-- Witness for C10 at a concrete configuration table. -/
theorem get_config_empty_default_raises_witness :
    get_config (fun _ => none) (fun _ => none) (['k']) (some []) true = .error () ∧
    get_config (fun _ => none) (fun _ => none) (['k']) (some (['d'])) true = .ok (['d']) := by
  have h := get_config_empty_default_raises (fun _ => none) (fun _ => none)
    (['k']) true (Or.inr rfl) rfl
  exact ⟨h.1, h.2 ['d'] (by decide)⟩

/-- Claim C8 — the release-PR locator returns the unique open PR matching
`owner:head` → `base` when exactly one exists, and `none` when zero or more
than one match. -/
theorem release_pull_request_unique
    (pool : List PullRequest) (isMatch : PullRequest → Bool) :
    (∀ p, pool.filter isMatch = [p] →
      release_pull_request (pool.filter isMatch) = some p) ∧
    (pool.filter isMatch = [] →
      release_pull_request (pool.filter isMatch) = none) ∧
    (2 ≤ (pool.filter isMatch).length →
      release_pull_request (pool.filter isMatch) = none) := by
  refine ⟨?_, ?_, ?_⟩
  · intro p hp
    rw [hp]
    simp [release_pull_request]
  · intro hp
    rw [hp]
    simp [release_pull_request]
  · intro hlen
    have : (pool.filter isMatch).length ≠ 1 := by omega
    simp [release_pull_request, this]

/-- Witness for C8 at concrete query results. -/
theorem release_pull_request_unique_witness :
    release_pull_request ((
      [⟨1, ['t'], ['u'], 0, false⟩] : List PullRequest).filter (fun _ => true))
      = some ⟨1, ['t'], ['u'], 0, false⟩ ∧
    release_pull_request (([] : List PullRequest).filter (fun _ => true)) = none ∧
    release_pull_request ((
      [⟨1, ['t'], ['u'], 0, false⟩, ⟨2, ['s'], ['v'], 1, false⟩]
        : List PullRequest).filter (fun _ => true)) = none := by
  refine ⟨?_, ?_, ?_⟩
  · exact (release_pull_request_unique [⟨1, ['t'], ['u'], 0, false⟩]
      (fun _ => true)).1 ⟨1, ['t'], ['u'], 0, false⟩ (by decide)
  · exact (release_pull_request_unique [] (fun _ => true)).2.1 (by decide)
  · exact (release_pull_request_unique
      [⟨1, ['t'], ['u'], 0, false⟩, ⟨2, ['s'], ['v'], 1, false⟩]
      (fun _ => true)).2.2 (by decide)

/-!
## Description reconciler

`RE_TASK_LIST = re.compile(r"(-|\*)\s+\[x\]\s+#(?P<number>\d+)")` and
`pull_request_description(pr_list, old_body=None)` from gh_pr_release.py.

`matchTask s` models an attempt of the regex engine to match `RE_TASK_LIST`
at the first position of `s` (greedy `\s+` runs followed by the literals
`[x]`, `#`; greedy `\d+` run giving the `number` group).  `findChecked`
models `re.finditer`: it collects the numbers of all matches.  (`finditer`
resumes scanning after the end of each match, whereas `findChecked` advances
one character at a time; the two agree because no match of this pattern can
begin strictly inside another — every interior character of a match is
whitespace, `[`, `x`, `]`, `#` or a digit, never the required leading `-`
or `*`.)
-/

/-- One-or-more whitespace (`\s+`): requires a leading whitespace character
and consumes the maximal whitespace run. -/
def skipWs1 : List Char → Option (List Char)
  | [] => none
  | c :: r => if isWsChar c then some (dropWs r) else none

/-- Longest digit run at the front of a string. -/
def takeDigits : List Char → List Char
  | [] => []
  | c :: r => if isDigitChar c then c :: takeDigits r else []

/-- Remainder after the longest digit run at the front. -/
def dropDigits : List Char → List Char
  | [] => []
  | c :: r => if isDigitChar c then dropDigits r else c :: r

/-- `\d+` followed by `int(...)`: parse the maximal (non-empty) digit run. -/
def readDigits (s : List Char) : Option (Nat × List Char) :=
  if takeDigits s = [] then none
  else some ((takeDigits s).foldl (fun a c => a * 10 + digitVal c) 0, dropDigits s)

/-- Match `RE_TASK_LIST` at the start of `s`, returning the `number` group. -/
def matchTask (s : List Char) : Option Nat :=
  match s with
  | [] => none
  | c :: r =>
    if c = '-' ∨ c = '*' then
      match skipWs1 r with
      | none => none
      | some r1 =>
        match r1 with
        | '[' :: 'x' :: ']' :: r2 =>
          match skipWs1 r2 with
          | none => none
          | some r3 =>
            match r3 with
            | '#' :: r4 =>
              match readDigits r4 with
              | some (n, _) => some n
              | none => none
            | _ => none
        | _ => none
    else none

/-- `re.finditer(RE_TASK_LIST, body)`: the numbers of all matches, in order
of position. -/
def findChecked : List Char → List Nat
  | [] => []
  | c :: r =>
    match matchTask (c :: r) with
    | some n => n :: findChecked r
    | none => findChecked r

/-- The `checked` set computed at the top of `pull_request_description`:
`old_body` is falsy (None or empty) ⇒ empty, otherwise the numbers found by
`re.finditer(RE_TASK_LIST, old_body)`. -/
def checkedOf : Option (List Char) → List Nat
  | none => []
  | some b => if b = [] then [] else findChecked b

/-- The loop body of `pull_request_description`:
`f"- [{x_or_space}] #{pr.number} {pr.title} @{pr.user.login}\n"`. -/
def renderLine (checked : List Nat) (pr : PullRequest) : List Char :=
  '-' :: ' ' :: '[' :: (if pr.number ∈ checked then 'x' else ' ') :: ']' :: ' ' :: '#' ::
    (natDigits pr.number ++ ' ' :: (pr.title ++ ' ' :: '@' :: (pr.user_login ++ ['\n'])))

/-- `pull_request_description(pr_list, old_body)` from gh_pr_release.py. -/
def pull_request_description (pr_list : List PullRequest)
    (old_body : Option (List Char)) : List Char :=
  joinAll (pr_list.map (renderLine (checkedOf old_body)))

/-- The head of a rendered checklist line for number `n` with marker `m`:
`- [m] #n ` (used in specification statements only). -/
def itemHead (m : Char) (n : Nat) : List Char :=
  '-' :: ' ' :: '[' :: m :: ']' :: ' ' :: '#' :: (natDigits n ++ [' '])

/-!
### Decimal-digit lemmas
-/

theorem natDigitsCore_fuel_irrelevant :
    ∀ f₁ f₂ n acc, n < f₁ → n < f₂ →
      natDigitsCore f₁ n acc = natDigitsCore f₂ n acc := by
  intro f₁
  induction f₁ with
  | zero => intro f₂ n acc h₁ h₂; omega
  | succ g ih =>
    intro f₂ n acc h₁ h₂
    cases f₂ with
    | zero => omega
    | succ h =>
      by_cases hn : n < 10
      · simp [natDigitsCore, hn]
      · have hdiv : n / 10 < n := Nat.div_lt_self (by omega) (by omega)
        simp only [natDigitsCore, hn, if_false]
        exact ih h (n / 10) _ (by omega) (by omega)

theorem natDigitsCore_eq_natDigits :
    ∀ fuel n acc, n < fuel → natDigitsCore fuel n acc = natDigits n ++ acc := by
  intro fuel
  induction fuel with
  | zero => intro n acc h; omega
  | succ f ih =>
    intro n acc h
    by_cases hn : n < 10
    · simp [natDigitsCore, natDigits, hn]
    · have hdiv : n / 10 < n := Nat.div_lt_self (by omega) (by omega)
      have hlhs : natDigitsCore (f + 1) n acc
          = natDigits (n / 10) ++ digitChar (n % 10) :: acc := by
        simp only [natDigitsCore, hn, if_false]
        exact ih (n / 10) _ (by omega)
      have hrhs : natDigits n = natDigits (n / 10) ++ [digitChar (n % 10)] := by
        show natDigitsCore (n + 1) n [] = _
        simp only [natDigitsCore, hn, if_false]
        rw [natDigitsCore_fuel_irrelevant n f (n / 10) _ (by omega) (by omega)]
        exact ih (n / 10) _ (by omega)
      rw [hlhs, hrhs, List.append_assoc]
      rfl

/-- Unfolding equation for `natDigits`. -/
theorem natDigits_eq (n : Nat) :
    natDigits n = if n < 10 then [digitChar n]
      else natDigits (n / 10) ++ [digitChar (n % 10)] := by
  by_cases hn : n < 10
  · simp [natDigits, natDigitsCore, hn]
  · simp only [hn, if_false]
    show natDigitsCore (n + 1) n [] = _
    simp only [natDigitsCore, hn, if_false]
    exact natDigitsCore_eq_natDigits n (n / 10) _
      (by have := Nat.div_lt_self (show 0 < n by omega) (show 1 < 10 by omega); omega)

theorem isDigitChar_digitChar {d : Nat} (hd : d < 10) :
    isDigitChar (digitChar d) = true := by
  interval_cases d <;> decide

theorem digitVal_digitChar {d : Nat} (hd : d < 10) : digitVal (digitChar d) = d := by
  interval_cases d <;> decide

theorem natDigits_all_digits : ∀ n, ∀ c ∈ natDigits n, isDigitChar c = true := by
  have key : ∀ fuel n, n < fuel → ∀ c ∈ natDigits n, isDigitChar c = true := by
    intro fuel
    induction fuel with
    | zero => intro n h; omega
    | succ f ih =>
      intro n h c hc
      rw [natDigits_eq] at hc
      by_cases hn : n < 10
      · simp [hn] at hc
        subst hc
        exact isDigitChar_digitChar hn
      · simp only [hn, if_false, List.mem_append, List.mem_singleton] at hc
        rcases hc with hc | hc
        · have hdiv : n / 10 < n := Nat.div_lt_self (by omega) (by omega)
          exact ih (n / 10) (by omega) c hc
        · subst hc
          exact isDigitChar_digitChar (Nat.mod_lt n (by omega))
  intro n
  exact key (n + 1) n (Nat.lt_succ_self n)

theorem natDigits_ne_nil (n : Nat) : natDigits n ≠ [] := by
  rw [natDigits_eq]
  by_cases hn : n < 10 <;> simp [hn]

/-- Parsing the decimal representation recovers the number. -/
theorem foldl_natDigits (n : Nat) :
    (natDigits n).foldl (fun a c => a * 10 + digitVal c) 0 = n := by
  have key : ∀ fuel n, n < fuel →
      (natDigits n).foldl (fun a c => a * 10 + digitVal c) 0 = n := by
    intro fuel
    induction fuel with
    | zero => intro n h; omega
    | succ f ih =>
      intro n h
      rw [natDigits_eq]
      by_cases hn : n < 10
      · simp [hn, List.foldl, digitVal_digitChar hn]
      · have hdiv : n / 10 < n := Nat.div_lt_self (by omega) (by omega)
        simp only [hn, if_false, List.foldl_append, List.foldl]
        rw [ih (n / 10) (by omega), digitVal_digitChar (Nat.mod_lt n (by omega))]
        omega
  exact key (n + 1) n (Nat.lt_succ_self n)

theorem natDigits_injective {a b : Nat} (h : natDigits a = natDigits b) : a = b := by
  have := foldl_natDigits a
  rw [h, foldl_natDigits] at this
  omega

/-!
### Structural lemmas about the rendered body
-/

theorem joinAll_append : ∀ A B : List (List Char), joinAll (A ++ B) = joinAll A ++ joinAll B := by
  intro A B
  induction A with
  | nil => rfl
  | cons l A ih => simp [joinAll, ih]

theorem findChecked_cons (c : Char) (r : List Char) :
    findChecked (c :: r) = match matchTask (c :: r) with
      | some n => n :: findChecked r
      | none => findChecked r := rfl

theorem matchTask_not_marker {c : Char} (s : List Char) (h : ¬(c = '-' ∨ c = '*')) :
    matchTask (c :: s) = none := by
  simp [matchTask, h]

/-- A digit character is never the `-`/`*` a task-list match must begin with. -/
theorem digit_not_marker {c : Char} (h : isDigitChar c = true) : ¬(c = '-' ∨ c = '*') := by
  rintro (rfl | rfl) <;> simp [isDigitChar] at h

/-- Scanning a stretch of characters none of which is `-` or `*` finds
nothing: matches can only begin at `-`/`*`. -/
theorem findChecked_append_clean :
    ∀ xs r : List Char, (∀ c ∈ xs, ¬(c = '-' ∨ c = '*')) →
      findChecked (xs ++ r) = findChecked r := by
  intro xs
  induction xs with
  | nil => intro r _; rfl
  | cons c xs ih =>
    intro r h
    have hc := h c (List.mem_cons_self c xs)
    show findChecked (c :: (xs ++ r)) = findChecked r
    rw [findChecked_cons, matchTask_not_marker _ hc]
    exact ih r fun d hd => h d (List.mem_cons_of_mem c hd)

theorem takeDigits_append {A : List Char} (hA : ∀ c ∈ A, isDigitChar c = true)
    {c : Char} (hc : isDigitChar c = false) (r : List Char) :
    takeDigits (A ++ c :: r) = A ∧ dropDigits (A ++ c :: r) = c :: r := by
  induction A with
  | nil => simp [takeDigits, dropDigits, hc]
  | cons a A ih =>
    have ha := hA a (List.mem_cons_self a A)
    have hrest := ih fun d hd => hA d (List.mem_cons_of_mem a hd)
    simp [takeDigits, dropDigits, ha, hrest.1, hrest.2]

theorem readDigits_natDigits (n : Nat) {c : Char} (hc : isDigitChar c = false)
    (r : List Char) :
    readDigits (natDigits n ++ c :: r) = some (n, c :: r) := by
  obtain ⟨ht, hd⟩ := takeDigits_append (natDigits_all_digits n) hc r
  simp [readDigits, ht, hd, foldl_natDigits, natDigits_ne_nil n]

/-- The regex matches at the head of a rendered checked line and extracts
exactly its number. -/
theorem matchTask_checked_line (n : Nat) (t : List Char) :
    matchTask ('-' :: ' ' :: '[' :: 'x' :: ']' :: ' ' :: '#' ::
      (natDigits n ++ ' ' :: t)) = some n := by
  have h1 : skipWs1 (' ' :: '[' :: 'x' :: ']' :: ' ' :: '#' :: (natDigits n ++ ' ' :: t))
      = some ('[' :: 'x' :: ']' :: ' ' :: '#' :: (natDigits n ++ ' ' :: t)) := by
    simp [skipWs1, dropWs, (by decide : isWsChar ' ' = true),
      (by decide : isWsChar '[' = false)]
  have h2 : skipWs1 (' ' :: '#' :: (natDigits n ++ ' ' :: t))
      = some ('#' :: (natDigits n ++ ' ' :: t)) := by
    simp [skipWs1, dropWs, (by decide : isWsChar ' ' = true),
      (by decide : isWsChar '#' = false)]
  simp [matchTask, h1, h2, readDigits_natDigits n (by decide : isDigitChar ' ' = false) t]

/-- The regex does not match at the head of a rendered unchecked line:
the marker position holds a space, not `x`. -/
theorem matchTask_unchecked_line (s : List Char) :
    matchTask ('-' :: ' ' :: '[' :: ' ' :: ']' :: ' ' :: '#' :: s) = none := by
  have h1 : skipWs1 (' ' :: '[' :: ' ' :: ']' :: ' ' :: '#' :: s)
      = some ('[' :: ' ' :: ']' :: ' ' :: '#' :: s) := by
    simp [skipWs1, dropWs, (by decide : isWsChar ' ' = true),
      (by decide : isWsChar '[' = false)]
  simp [matchTask, h1]

/-- Claim C6 — rendering a merged-set with no prior body yields one
newline-terminated line per entry, in order, each of the form
`- [ ] #<number> <title> @<author_login>`. -/
theorem description_fresh_render (S : List PullRequest) :
    ∃ L, pull_request_description S none = joinAll L ∧
      L.length = S.length ∧
      List.Forall₂ (fun (l : List Char) pr =>
        l = '-' :: ' ' :: '[' :: ' ' :: ']' :: ' ' :: '#' ::
          (natDigits pr.number ++ ' ' ::
            (pr.title ++ ' ' :: '@' :: (pr.user_login ++ ['\n'])))) L S ∧
      ∀ l ∈ L, hasPre (['-', ' ', '[', ' ', ']', ' ', '#']) l = true ∧
        ∃ X, l = X ++ ['\n'] := by
  refine ⟨S.map (renderLine []), rfl, by simp, ?_, ?_⟩
  · induction S with
    | nil => exact List.Forall₂.nil
    | cons pr S ih =>
      exact List.Forall₂.cons (by simp [renderLine]) ih
  · intro l hl
    rcases List.mem_map.mp hl with ⟨pr, _, rfl⟩
    constructor
    · simp [renderLine, hasPre]
    · refine ⟨'-' :: ' ' :: '[' :: ' ' :: ']' :: ' ' :: '#' ::
        (natDigits pr.number ++ ' ' :: (pr.title ++ ' ' :: '@' :: pr.user_login)), ?_⟩
      simp [renderLine, List.append_assoc]

/-- Characters occurring after the leading `-` of a rendered line are never
`-` or `*` when the title and login are free of those characters. -/
theorem renderLine_tail_clean (checked : List Nat) (pr : PullRequest)
    (ht : ∀ c ∈ pr.title, ¬(c = '-' ∨ c = '*'))
    (hu : ∀ c ∈ pr.user_login, ¬(c = '-' ∨ c = '*')) :
    ∀ c ∈ ' ' :: '[' :: (if pr.number ∈ checked then 'x' else ' ') :: ']' :: ' ' :: '#' ::
      (natDigits pr.number ++ ' ' ::
        (pr.title ++ ' ' :: '@' :: (pr.user_login ++ ['\n']))),
      ¬(c = '-' ∨ c = '*') := by
  intro c hc
  simp only [List.mem_cons, List.mem_append, List.mem_singleton] at hc
  rcases hc with rfl | rfl | rfl | rfl | rfl | rfl | hc | rfl | hc | rfl | rfl | hc | rfl | h0
  · decide
  · decide
  · by_cases hmem : pr.number ∈ checked <;> simp [hmem]
  · decide
  · decide
  · decide
  · exact digit_not_marker (natDigits_all_digits pr.number c hc)
  · decide
  · exact ht c hc
  · decide
  · decide
  · exact hu c hc
  · decide
  · exact absurd h0 (List.not_mem_nil c)

/-- `re.finditer` over a body rendered from `S` recovers exactly the numbers
of the entries rendered with an `x` marker (provided no title or login
contains `-` or `*`). -/
theorem findChecked_render (checked : List Nat) :
    ∀ S : List PullRequest,
      (∀ pr ∈ S, (∀ c ∈ pr.title, ¬(c = '-' ∨ c = '*')) ∧
        (∀ c ∈ pr.user_login, ¬(c = '-' ∨ c = '*'))) →
      findChecked (joinAll (S.map (renderLine checked)))
        = S.filterMap
            (fun pr => if pr.number ∈ checked then some pr.number else none) := by
  intro S
  induction S with
  | nil => intro _; rfl
  | cons pr S ih =>
    intro h
    obtain ⟨ht, hu⟩ := h pr (List.mem_cons_self pr S)
    have hrest := ih fun q hq => h q (List.mem_cons_of_mem pr hq)
    show findChecked (renderLine checked pr ++ joinAll (S.map (renderLine checked))) = _
    have hsplit : renderLine checked pr ++ joinAll (S.map (renderLine checked))
        = '-' :: ((' ' :: '[' :: (if pr.number ∈ checked then 'x' else ' ') :: ']' ::
            ' ' :: '#' ::
            (natDigits pr.number ++ ' ' ::
              (pr.title ++ ' ' :: '@' :: (pr.user_login ++ ['\n']))))
          ++ joinAll (S.map (renderLine checked))) := by
      simp [renderLine]
    rw [hsplit, findChecked_cons]
    have hclean := renderLine_tail_clean checked pr ht hu
    by_cases hmem : pr.number ∈ checked
    · have hx : (if pr.number ∈ checked then 'x' else ' ') = 'x' := by simp [hmem]
      rw [hx] at hclean ⊢
      have hmt : matchTask ('-' :: ((' ' :: '[' :: 'x' :: ']' :: ' ' :: '#' ::
          (natDigits pr.number ++ ' ' ::
            (pr.title ++ ' ' :: '@' :: (pr.user_login ++ ['\n']))))
          ++ joinAll (S.map (renderLine checked)))) = some pr.number := by
        have := matchTask_checked_line pr.number
          ((pr.title ++ ' ' :: '@' :: (pr.user_login ++ ['\n']))
            ++ joinAll (S.map (renderLine checked)))
        simpa [List.append_assoc] using this
      rw [hmt]
      show pr.number :: findChecked _ = _
      rw [findChecked_append_clean _ _ hclean, hrest]
      simp [hmem]
    · have hx : (if pr.number ∈ checked then 'x' else ' ') = ' ' := by simp [hmem]
      rw [hx] at hclean ⊢
      have hmt : matchTask ('-' :: ((' ' :: '[' :: ' ' :: ']' :: ' ' :: '#' ::
          (natDigits pr.number ++ ' ' ::
            (pr.title ++ ' ' :: '@' :: (pr.user_login ++ ['\n']))))
          ++ joinAll (S.map (renderLine checked)))) = none := by
        have := matchTask_unchecked_line
          ((natDigits pr.number ++ ' ' ::
            (pr.title ++ ' ' :: '@' :: (pr.user_login ++ ['\n'])))
            ++ joinAll (S.map (renderLine checked)))
        simpa [List.append_assoc] using this
      rw [hmt]
      show findChecked _ = _
      rw [findChecked_append_clean _ _ hclean, hrest]
      simp [hmem]

/-- Claim C1 (counterexample) — regeneration is NOT idempotent for every
merged-set: `re.finditer` scans the whole body, so a pull-request title that
itself contains the checked-task pattern (here `a - [x] #2 b`) makes the
second regeneration tick entry #2 even though it was unticked. -/
theorem description_idempotent_cex :
    pull_request_description
        [⟨1, ['a', ' ', '-', ' ', '[', 'x', ']', ' ', '#', '2', ' ', 'b'],
          ['u'], 0, true⟩, ⟨2, ['t'], ['v'], 0, true⟩]
        (some (pull_request_description
          [⟨1, ['a', ' ', '-', ' ', '[', 'x', ']', ' ', '#', '2', ' ', 'b'],
            ['u'], 0, true⟩, ⟨2, ['t'], ['v'], 0, true⟩] none))
      ≠ pull_request_description
          [⟨1, ['a', ' ', '-', ' ', '[', 'x', ']', ' ', '#', '2', ' ', 'b'],
            ['u'], 0, true⟩, ⟨2, ['t'], ['v'], 0, true⟩] none := by
  decide

/-- Claim C1 (amended) — idempotence of the description reconciler: for any
merged-set `S` whose titles and author logins contain neither `-` nor `*`
(so no embedded text can begin a checked-task match) and any prior body `B`,
re-rendering the rendered body changes nothing. -/
theorem description_idempotent_amended
    (S : List PullRequest) (B : Option (List Char))
    (hclean : ∀ pr ∈ S, (∀ c ∈ pr.title, ¬(c = '-' ∨ c = '*')) ∧
        (∀ c ∈ pr.user_login, ¬(c = '-' ∨ c = '*'))) :
    pull_request_description S (some (pull_request_description S B))
      = pull_request_description S B := by
  by_cases hS : S = []
  · subst hS; rfl
  · have hne : pull_request_description S B ≠ [] := by
      cases S with
      | nil => exact absurd rfl hS
      | cons pr S' => simp [pull_request_description, joinAll, renderLine]
    have hch : checkedOf (some (pull_request_description S B))
        = findChecked (pull_request_description S B) := by
      simp [checkedOf, hne]
    show joinAll (S.map (renderLine (checkedOf (some (pull_request_description S B)))))
      = pull_request_description S B
    rw [hch]
    rw [show pull_request_description S B
      = joinAll (S.map (renderLine (checkedOf B))) from rfl]
    rw [findChecked_render (checkedOf B) S hclean]
    show joinAll (S.map (renderLine _)) = joinAll (S.map (renderLine (checkedOf B)))
    refine congrArg joinAll ?_
    refine List.map_congr_left ?_
    intro q hq
    have hiff : (q.number ∈ S.filterMap
        (fun p => if p.number ∈ checkedOf B then some p.number else none))
        ↔ q.number ∈ checkedOf B := by
      constructor
      · intro h
        rcases List.mem_filterMap.mp h with ⟨p, _, hfp⟩
        by_cases hpc : p.number ∈ checkedOf B
        · simp only [hpc, if_true, Option.some_inj] at hfp
          rwa [← hfp]
        · simp [hpc] at hfp
      · intro h
        exact List.mem_filterMap.mpr ⟨q, hq, by simp [h]⟩
    simp [renderLine, hiff]

/-- Witness for the amended C1 at a concrete merged-set and empty prior
body. -/
theorem description_idempotent_amended_witness :
    (∀ pr ∈ [(⟨1, ['t'], ['u'], 0, true⟩ : PullRequest)],
      (∀ c ∈ pr.title, ¬(c = '-' ∨ c = '*')) ∧
      (∀ c ∈ pr.user_login, ¬(c = '-' ∨ c = '*'))) ∧
    pull_request_description [(⟨1, ['t'], ['u'], 0, true⟩ : PullRequest)]
        (some (pull_request_description [(⟨1, ['t'], ['u'], 0, true⟩ : PullRequest)] none))
      = pull_request_description [(⟨1, ['t'], ['u'], 0, true⟩ : PullRequest)] none :=
  ⟨by decide, description_idempotent_amended _ none (by decide)⟩

/-- A digit-run-plus-terminator prefix pins down the digit run: if
`A ++ [c]` is a prefix of `B ++ c :: r` with `A`, `B` all digits and `c`
not a digit, then `A = B`. -/
theorem hasPre_digit_run :
    ∀ A B : List Char, (∀ d ∈ A, isDigitChar d = true) →
      (∀ d ∈ B, isDigitChar d = true) → ∀ {c : Char}, isDigitChar c = false →
      ∀ r, hasPre (A ++ [c]) (B ++ c :: r) = true → A = B := by
  intro A
  induction A with
  | nil =>
    intro B _ hB c hc r h
    cases B with
    | nil => rfl
    | cons b B' =>
      simp only [List.nil_append, List.cons_append, hasPre] at h
      by_cases hcb : c = b
      · exact absurd (hcb ▸ hB b (List.mem_cons_self b B')) (by simp [hc])
      · simp [hcb] at h
  | cons a A' ih =>
    intro B hA hB c hc r h
    cases B with
    | nil =>
      simp only [List.cons_append, List.nil_append, hasPre] at h
      by_cases hac : a = c
      · exact absurd (hac ▸ hA a (List.mem_cons_self a A')) (by simp [hc])
      · simp [hac] at h
    | cons b B' =>
      simp only [List.cons_append, hasPre] at h
      by_cases hab : a = b
      · subst hab
        simp only [if_pos rfl] at h
        exact congrArg (a :: ·)
          (ih B' (fun d hd => hA d (List.mem_cons_of_mem a hd))
            (fun d hd => hB d (List.mem_cons_of_mem a hd)) hc r h)
      · simp [hab] at h

/-- If a rendered line begins with `- [m] #N ` then `N` is that line's
pull-request number. -/
theorem hasPre_itemHead_renderLine {m : Char} {N : Nat} {checked : List Nat}
    {pr : PullRequest}
    (h : hasPre (itemHead m N) (renderLine checked pr) = true) : N = pr.number := by
  by_cases hm : m = (if pr.number ∈ checked then 'x' else ' ')
  · rw [itemHead, renderLine, ← hm] at h
    simp only [hasPre, if_pos rfl] at h
    exact natDigits_injective
      (hasPre_digit_run (natDigits N) (natDigits pr.number)
        (natDigits_all_digits N) (natDigits_all_digits pr.number)
        (by decide : isDigitChar ' ' = false) _ h)
  · rw [itemHead, renderLine] at h
    simp only [hasPre, if_pos rfl, if_neg hm] at h
    exact absurd h (by simp)

/-- Claim C3 — checked-state preservation: if the prior body `B` carries a
checked marker for `N` and some entry of `S` has number `N`, the rendered
output contains the checked line head `- [x] #N `; and if no entry of `S`
has number `N`, no rendered line is a line for `#N` at all (with any
marker). -/
theorem description_checked_preservation
    (S : List PullRequest) (B : List Char) (N : Nat) :
    ((N ∈ findChecked B) → (∃ pr ∈ S, pr.number = N) →
      ∃ t₁ t₂, pull_request_description S (some B) = t₁ ++ (itemHead 'x' N ++ t₂)) ∧
    ((∀ pr ∈ S, pr.number ≠ N) →
      ∃ L, pull_request_description S (some B) = joinAll L ∧
        L.length = S.length ∧
        ∀ l ∈ L, ∀ m, hasPre (itemHead m N) l = false) := by
  constructor
  · intro hN hex
    rcases hex with ⟨pr, hpr, hnum⟩
    have hBne : B ≠ [] := by
      rintro rfl
      exact List.not_mem_nil N hN
    have hch : checkedOf (some B) = findChecked B := by simp [checkedOf, hBne]
    rcases List.append_of_mem hpr with ⟨S₁, S₂, rfl⟩
    refine ⟨joinAll (S₁.map (renderLine (findChecked B))),
      (pr.title ++ ' ' :: '@' :: (pr.user_login ++ ['\n']))
        ++ joinAll (S₂.map (renderLine (findChecked B))), ?_⟩
    show joinAll (((S₁ ++ pr :: S₂).map (renderLine (checkedOf (some B))))) = _
    rw [hch, List.map_append, joinAll_append]
    have hmark : (if pr.number ∈ findChecked B then 'x' else ' ') = 'x' := by
      rw [hnum]; simp [hN]
    simp [renderLine, itemHead, joinAll, hmark, hnum, hN, List.append_assoc]
  · intro hno
    refine ⟨S.map (renderLine (checkedOf (some B))), rfl, by simp, ?_⟩
    intro l hl m
    rcases List.mem_map.mp hl with ⟨pr, hpr, rfl⟩
    cases hval : hasPre (itemHead m N) (renderLine (checkedOf (some B)) pr) with
    | false => rfl
    | true => exact absurd (hasPre_itemHead_renderLine hval).symm (hno pr hpr)

/-- Witness for C3: a two-entry merged-set, a prior body checking #1, and
the absent number 5. -/
theorem description_checked_preservation_witness :
    (∃ t₁ t₂, pull_request_description
        [(⟨1, ['t'], ['u'], 0, true⟩ : PullRequest), ⟨2, ['s'], ['v'], 0, true⟩]
        (some (['-', ' ', '[', 'x', ']', ' ', '#', '1', ' ', 't', ' ', '@', 'u', '\n']))
      = t₁ ++ (itemHead 'x' 1 ++ t₂)) ∧
    (∃ L, pull_request_description
        [(⟨1, ['t'], ['u'], 0, true⟩ : PullRequest), ⟨2, ['s'], ['v'], 0, true⟩]
        (some (['-', ' ', '[', 'x', ']', ' ', '#', '1', ' ', 't', ' ', '@', 'u', '\n']))
      = joinAll L ∧ L.length = 2 ∧ ∀ l ∈ L, ∀ m, hasPre (itemHead m 5) l = false) :=
  ⟨(description_checked_preservation
      [⟨1, ['t'], ['u'], 0, true⟩, ⟨2, ['s'], ['v'], 0, true⟩]
      (['-', ' ', '[', 'x', ']', ' ', '#', '1', ' ', 't', ' ', '@', 'u', '\n'])
      1).1 (by decide) (by decide),
   (description_checked_preservation
      [⟨1, ['t'], ['u'], 0, true⟩, ⟨2, ['s'], ['v'], 0, true⟩]
      (['-', ' ', '[', 'x', ']', ' ', '#', '1', ' ', 't', ' ', '@', 'u', '\n'])
      5).2 (by decide)⟩

/-!
## Merge detector

`merged_commit_hashes`, `merged_pull_request_numbers` and
`merged_pull_requests` from gh_pr_release.py.  The git collaborator is
modelled by the raw strings it returns: `logOut` is the output of
`git log --merges --pretty=format:%P origin/base..origin/head`, `lsOut` the
output of `git ls-remote origin "refs/pull/*/head"`, and `mbase sha` the raw
output of `git merge-base sha origin/base`.  The GitHub collaborator is
`gp : Nat → PullRequest` (`gh_repo.get_pull`).
-/

/-- The generator loop of `merged_commit_hashes`: for every line,
`main, feature = line.split()` (a two-element unpacking that raises
`ValueError`, modelled as `none`, unless the line has exactly two fields),
yielding `feature`. -/
def collectSecond : List (List Char) → Option (List (List Char))
  | [] => some []
  | line :: rest =>
    match splitWs line with
    | [_, feature] => (collectSecond rest).map (feature :: ·)
    | _ => none

/-- `merged_commit_hashes` from gh_pr_release.py: second parent of every
merge commit listed between `origin/base` and `origin/head`. -/
def merged_commit_hashes (logOut : List Char) : Option (List (List Char)) :=
  if logOut = [] then some []
  else collectSecond (splitLines logOut)

/-- `RE_PR_REF.match(ref)` with `RE_PR_REF = re.compile(r"refs/pull/(?P<number>\d+)/head")`:
anchored at the start only (`re.match`), literal prefix, greedy digit
group, then the literal `/head` (anything may follow). -/
def matchPRRef (ref : List Char) : Option Nat :=
  match ref with
  | 'r' :: 'e' :: 'f' :: 's' :: '/' :: 'p' :: 'u' :: 'l' :: 'l' :: '/' :: rest =>
    match readDigits rest with
    | some (n, r2) => if hasPre (['/', 'h', 'e', 'a', 'd']) r2 then some n else none
    | none => none
  | _ => none

/-- The pull-request number a single `ls-remote` output line carries: the
line's second field, matched against `RE_PR_REF` (used in specification
statements). -/
def refLineNumber (line : List Char) : Option Nat :=
  match splitWs line with
  | [_, ref] => matchPRRef ref
  | _ => none

/-- The generator loop of `merged_pull_request_numbers`: per line, unpack
`sha1, ref = line.split()` (ValueError ⇒ `none`), skip lines whose hash is
not among the merge-commit feature parents, match the ref against
`RE_PR_REF`, and yield the number unless the commit is already an ancestor
of base (`sha1 == merge_base(sha1, origin/base).strip()`). -/
def merged_pull_request_numbers_list (hashes : List (List Char))
    (mbase : List Char → List Char) : List (List Char) → Option (List Nat)
  | [] => some []
  | line :: rest =>
    match splitWs line with
    | [sha1, ref] =>
      (merged_pull_request_numbers_list hashes mbase rest).map (fun tl =>
        if sha1 ∈ hashes then
          match matchPRRef ref with
          | some n => if sha1 ≠ pyStrip (mbase sha1) then n :: tl else tl
          | none => tl
        else tl)
    | _ => none

/-- `merged_pull_request_numbers` from gh_pr_release.py. -/
def merged_pull_request_numbers (lsOut : List Char) (hashes : List (List Char))
    (mbase : List Char → List Char) : Option (List Nat) :=
  if lsOut = [] then some []
  else merged_pull_request_numbers_list hashes mbase (splitLines lsOut)

/-- `merged_pull_requests` from gh_pr_release.py: fetch each candidate
number from the service and keep those the service reports merged. -/
def merged_pull_requests (logOut lsOut : List Char)
    (mbase : List Char → List Char) (gp : Nat → PullRequest) :
    Option (List PullRequest) :=
  (merged_commit_hashes logOut).bind fun hashes =>
    (merged_pull_request_numbers lsOut hashes mbase).map fun ns =>
      (ns.map gp).filter (fun pr => pr.merged)

/-- Claim C9 — `merged_commit_hashes` is total exactly on log output whose
lines each hold two whitespace-separated parent hashes, yielding the second
parent of each line; any line with three or more fields (octopus merge)
makes the two-way unpacking fail. -/
theorem merged_commit_hashes_unpacking (logOut : List Char) :
    ((∀ l ∈ splitLines logOut, ∃ a b, splitWs l = [a, b]) →
      ∃ hs, merged_commit_hashes logOut = some hs ∧
        List.Forall₂ (fun l h => ∃ a, splitWs l = [a, h]) (splitLines logOut) hs) ∧
    (∀ l ∈ splitLines logOut, ∀ a b c r, splitWs l = a :: b :: c :: r →
      merged_commit_hashes logOut = none) := by
  have key : ∀ L : List (List Char), (∀ l ∈ L, ∃ a b, splitWs l = [a, b]) →
      ∃ hs, collectSecond L = some hs ∧
        List.Forall₂ (fun l h => ∃ a, splitWs l = [a, h]) L hs := by
    intro L
    induction L with
    | nil => exact fun _ => ⟨[], rfl, List.Forall₂.nil⟩
    | cons l L ih =>
      intro h
      obtain ⟨a, b, hab⟩ := h l (List.mem_cons_self l L)
      obtain ⟨hs, hhs, hfa⟩ := ih fun x hx => h x (List.mem_cons_of_mem l hx)
      refine ⟨b :: hs, ?_, List.Forall₂.cons ⟨a, hab⟩ hfa⟩
      simp [collectSecond, hab, hhs]
  have keybad : ∀ L : List (List Char), ∀ l ∈ L,
      (∀ a b, splitWs l ≠ [a, b]) → collectSecond L = none := by
    intro L
    induction L with
    | nil => intro l hl; exact absurd hl (List.not_mem_nil l)
    | cons x L ih =>
      intro l hl hbad
      rcases List.mem_cons.mp hl with rfl | hl
      · rcases hsw : splitWs l with _ | ⟨a, _ | ⟨b, _ | ⟨c, r⟩⟩⟩ <;>
          simp [collectSecond, hsw]
        exact absurd hsw (hbad a b)
      · have hrest := ih l hl hbad
        rcases hsw : splitWs x with _ | ⟨a, _ | ⟨b, _ | ⟨c, r⟩⟩⟩ <;>
          simp [collectSecond, hsw, hrest]
  constructor
  · intro h
    have hne : logOut ≠ [] := by
      rintro rfl
      obtain ⟨a, b, hab⟩ := h [] (by simp [splitLines])
      simp [splitWs, splitWsCore, dropWs] at hab
    obtain ⟨hs, hhs, hfa⟩ := key (splitLines logOut) h
    exact ⟨hs, by simp [merged_commit_hashes, hne, hhs], hfa⟩
  · intro l hl a b c r hsw
    have hne : logOut ≠ [] := by
      rintro rfl
      simp [splitLines] at hl
      rw [hl] at hsw
      simp [splitWs, splitWsCore, dropWs] at hsw
    have : collectSecond (splitLines logOut) = none := by
      refine keybad _ l hl ?_
      intro a' b' heq
      rw [hsw] at heq
      simp at heq
    simp [merged_commit_hashes, hne, this]

/-- Witness for C9: a two-merge log parses to the two feature parents; an
octopus-merge line (three parents) fails. -/
theorem merged_commit_hashes_unpacking_witness :
    (∃ hs, merged_commit_hashes (("p1 aaa\np2 bbb").toList) = some hs ∧
      List.Forall₂ (fun l h => ∃ a, splitWs l = [a, h])
        (splitLines (("p1 aaa\np2 bbb").toList)) hs) ∧
    merged_commit_hashes (("p1 p2 p3").toList) = none := by
  constructor
  · refine (merged_commit_hashes_unpacking (("p1 aaa\np2 bbb").toList)).1 ?_
    intro l hl
    have hsl : splitLines (("p1 aaa\np2 bbb").toList)
        = [("p1 aaa").toList, ("p2 bbb").toList] := by decide
    rw [hsl] at hl
    simp only [List.mem_cons, List.not_mem_nil, or_false] at hl
    rcases hl with rfl | rfl
    · exact ⟨("p1").toList, ("aaa").toList, by decide⟩
    · exact ⟨("p2").toList, ("bbb").toList, by decide⟩
  · exact (merged_commit_hashes_unpacking (("p1 p2 p3").toList)).2
      (("p1 p2 p3").toList) (by decide)
      (("p1").toList) (("p2").toList) (("p3").toList) [] (by decide)

/-- Every successful run of the candidate-number loop yields a sublist of
the numbers carried by the `ls-remote` lines, in line order. -/
theorem merged_pull_request_numbers_list_sublist
    (hashes : List (List Char)) (mbase : List Char → List Char) :
    ∀ lines ns, merged_pull_request_numbers_list hashes mbase lines = some ns →
      ns.Sublist (lines.filterMap refLineNumber) := by
  intro lines
  induction lines with
  | nil =>
    intro ns h
    simp only [merged_pull_request_numbers_list, Option.some_inj] at h
    simp [← h]
  | cons line rest ih =>
    intro ns h
    rw [merged_pull_request_numbers_list] at h
    rcases hsw : splitWs line with _ | ⟨sha1, _ | ⟨ref, _ | ⟨x, r⟩⟩⟩
    · rw [hsw] at h
      exact Option.noConfusion h
    · rw [hsw] at h
      exact Option.noConfusion h
    · -- exactly two fields: the interesting case
      rw [hsw] at h
      rcases htl : merged_pull_request_numbers_list hashes mbase rest with _ | tl
      · rw [htl] at h
        exact Option.noConfusion h
      · rw [htl] at h
        have hns := Option.some.inj h
        have hsub := ih tl htl
        have href : refLineNumber line = matchPRRef ref := by
          simp [refLineNumber, hsw]
        rcases hmr : matchPRRef ref with _ | n
        · have hval : tl = ns := by
            rw [hmr] at hns
            simpa using hns
          rw [← hval, List.filterMap_cons_none (href.trans hmr)]
          exact hsub
        · by_cases hmem : sha1 ∈ hashes
          · by_cases hmb : sha1 ≠ pyStrip (mbase sha1)
            · have hval : n :: tl = ns := by
                rw [hmr] at hns
                simpa [hmem, hmb] using hns
              rw [← hval, List.filterMap_cons_some (href.trans hmr)]
              exact List.Sublist.cons₂ n hsub
            · have hval : tl = ns := by
                rw [hmr] at hns
                simpa [hmem, hmb] using hns
              rw [← hval, List.filterMap_cons_some (href.trans hmr)]
              exact List.Sublist.cons n hsub
          · have hval : tl = ns := by
              rw [hmr] at hns
              simpa [hmem] using hns
            rw [← hval, List.filterMap_cons_some (href.trans hmr)]
            exact List.Sublist.cons n hsub
    · rw [hsw] at h
      exact Option.noConfusion h

/-- Numbers of the merged-filtered fetched pull requests, when the service
returns the requested number: filtering commutes to the number list. -/
theorem map_number_filter_merged (gp : Nat → PullRequest)
    (hG : ∀ n, (gp n).number = n) :
    ∀ ns : List Nat,
      ((ns.map gp).filter (fun pr => pr.merged)).map (fun pr => pr.number)
        = ns.filter (fun n => (gp n).merged) := by
  intro ns
  induction ns with
  | nil => rfl
  | cons m ms ih =>
    by_cases hm : (gp m).merged <;> simp [List.filter_cons, hm, ih, hG m]

/-- Claim C5 — no two entries of the merged-set share a pull-request
number.  `hG` says the service returns the pull request that was asked for;
`hN` says distinct `ls-remote` ref lines carry distinct numbers (true of
real ls-remote output, whose ref names are unique).  Several merge commits
may point at the same pull request — the hash set `hashes` plays no role in
the conclusion. -/
theorem merged_pull_requests_nodup
    (logOut lsOut : List Char) (mbase : List Char → List Char)
    (gp : Nat → PullRequest)
    (hG : ∀ n, (gp n).number = n)
    (hN : ((splitLines lsOut).filterMap refLineNumber).Nodup) :
    ∀ prs, merged_pull_requests logOut lsOut mbase gp = some prs →
      (prs.map (fun pr => pr.number)).Nodup := by
  intro prs h
  rw [merged_pull_requests] at h
  rcases hh : merged_commit_hashes logOut with _ | hs
  · rw [hh] at h
    exact Option.noConfusion h
  · rw [hh] at h
    replace h : Option.map (fun ns => List.filter (fun pr => pr.merged) (List.map gp ns))
        (merged_pull_request_numbers lsOut hs mbase) = some prs := h
    rcases hn : merged_pull_request_numbers lsOut hs mbase with _ | ns
    · rw [hn] at h
      exact Option.noConfusion h
    · rw [hn] at h
      have hprs := Option.some.inj h
      have hnodup : ns.Nodup := by
        rw [merged_pull_request_numbers] at hn
        by_cases hls : lsOut = []
        · rw [if_pos hls] at hn
          rw [← Option.some.inj hn]
          exact List.nodup_nil
        · rw [if_neg hls] at hn
          exact (merged_pull_request_numbers_list_sublist hs mbase
            (splitLines lsOut) ns hn).nodup hN
      rw [← hprs]
      show (((ns.map gp).filter (fun pr => pr.merged)).map (fun pr => pr.number)).Nodup
      rw [map_number_filter_merged gp hG ns]
      exact hnodup.filter _

/-- Witness for C5: two merge commits, one of which carries pull request
#7 (hash `aaa`), the other an unrelated hash also in the set. -/
theorem merged_pull_requests_nodup_witness :
    (∀ n, ((fun n => (⟨n, ['t'], ['u'], n, true⟩ : PullRequest)) n).number = n) ∧
    ((splitLines (("aaa refs/pull/7/head\nbbb refs/pull/8/head").toList)).filterMap
      refLineNumber).Nodup ∧
    (([(⟨7, ['t'], ['u'], 7, true⟩ : PullRequest), ⟨8, ['t'], ['u'], 8, true⟩].map
      (fun pr => pr.number)).Nodup) :=
  ⟨fun n => rfl, by decide,
    merged_pull_requests_nodup (("x aaa\ny bbb").toList)
      (("aaa refs/pull/7/head\nbbb refs/pull/8/head").toList)
      (fun _ => ['z']) (fun n => ⟨n, ['t'], ['u'], n, true⟩)
      (fun n => rfl) (by decide)
      [⟨7, ['t'], ['u'], 7, true⟩, ⟨8, ['t'], ['u'], 8, true⟩] (by decide)⟩

/-!
## Orchestrator (cli.py `main`)

The run is modelled as the sequence of observable actions `main` performs:
log lines, the locator query (`release_pull_request`) and the write calls
(`create_pull` / `edit`).  `queryResult` is what the hosting service would
answer to the locator's query.
-/

/-- Ordering of pull requests by creation time (the key of
`sorted(pr_list, key=operator.attrgetter("created_at"))` in cli.py). -/
def createdLe (a b : PullRequest) : Prop := a.created_at ≤ b.created_at

instance : DecidableRel createdLe :=
  fun a b => inferInstanceAs (Decidable (a.created_at ≤ b.created_at))

instance : IsTotal PullRequest createdLe := ⟨fun a b => Nat.le_total a.created_at b.created_at⟩

instance : IsTrans PullRequest createdLe := ⟨fun _ _ _ => Nat.le_trans⟩

/-- Python's stable `sorted(pr_list, key=...created_at)`. -/
def sortByCreated (l : List PullRequest) : List PullRequest :=
  List.insertionSort createdLe l

/-- Observable actions of one orchestrator run. -/
inductive RunAction where
  | logNoCommits
  | logToBeReleased (number : Nat)
  | queryReleasePR
  | createPR
  | logCreated
  | updatePR
  | logUpdated
deriving DecidableEq

/-- `main` from cli.py as a trace of actions: detect merged pull requests;
if none, log and stop; otherwise log each (sorted by creation time), query
for an existing release PR, and create or update accordingly.  `none`
models an escaped exception from the detector. -/
def cli_main (logOut lsOut : List Char) (mbase : List Char → List Char)
    (gp : Nat → PullRequest) (queryResult : List PullRequest) :
    Option (List RunAction) :=
  (merged_pull_requests logOut lsOut mbase gp).map fun pr_list =>
    if pr_list.isEmpty then [RunAction.logNoCommits]
    else
      ((sortByCreated pr_list).map fun pr => RunAction.logToBeReleased pr.number)
        ++ RunAction.queryReleasePR ::
          (match release_pull_request queryResult with
           | none => [RunAction.createPR, RunAction.logCreated]
           | some _ => [RunAction.updatePR, RunAction.logUpdated])

/-- Claim C2 (counterexample) — the merged-set is NOT chronologically
sorted: with ls-remote listing #2's ref line before #1's, the detector
returns [#2, #1] although #1 was created (and merged) earlier; the list
handed to create/update keeps that order. -/
theorem merged_pull_requests_order_cex :
    (merged_pull_requests (("x a\ny b").toList)
        (("a refs/pull/2/head\nb refs/pull/1/head").toList)
        (fun _ => ['z'])
        (fun n => ⟨n, ['t'], ['u'], n, true⟩)).map
        (fun l => l.map (fun pr => pr.created_at)) = some [2, 1] ∧
    ¬ List.Sorted (· ≤ ·) [2, 1] := by
  constructor
  · decide
  · decide

/-- Claim C2 (amended) — the merged-set preserves the order in which the
candidate numbers appear in the `ls-remote` output (filtered to those the
service reports merged); it is not re-sorted chronologically.  Only the
orchestrator's log lines are sorted by creation time (`sortByCreated`). -/
theorem merged_pull_requests_order_amended
    (logOut lsOut : List Char) (mbase : List Char → List Char)
    (gp : Nat → PullRequest) (hG : ∀ n, (gp n).number = n) :
    (∀ prs, merged_pull_requests logOut lsOut mbase gp = some prs →
      ∃ hs ns, merged_commit_hashes logOut = some hs ∧
        merged_pull_request_numbers lsOut hs mbase = some ns ∧
        prs.map (fun pr => pr.number) = ns.filter (fun n => (gp n).merged)) ∧
    (∀ prs, List.Sorted createdLe (sortByCreated prs)) := by
  constructor
  · intro prs h
    rw [merged_pull_requests] at h
    rcases hh : merged_commit_hashes logOut with _ | hs
    · rw [hh] at h
      exact Option.noConfusion h
    · rw [hh] at h
      replace h : Option.map (fun ns => List.filter (fun pr => pr.merged) (List.map gp ns))
          (merged_pull_request_numbers lsOut hs mbase) = some prs := h
      rcases hn : merged_pull_request_numbers lsOut hs mbase with _ | ns
      · rw [hn] at h
        exact Option.noConfusion h
      · rw [hn] at h
        refine ⟨hs, ns, rfl, hn, ?_⟩
        rw [← Option.some.inj h]
        exact map_number_filter_merged gp hG ns
  · intro prs
    exact List.sorted_insertionSort createdLe prs

/-- Witness for the amended C2 at the counterexample's inputs. -/
theorem merged_pull_requests_order_amended_witness :
    (∀ n, ((fun n => (⟨n, ['t'], ['u'], n, true⟩ : PullRequest)) n).number = n) ∧
    (∃ hs ns, merged_commit_hashes (("x a\ny b").toList) = some hs ∧
      merged_pull_request_numbers (("a refs/pull/2/head\nb refs/pull/1/head").toList)
        hs (fun _ => ['z']) = some ns ∧
      ([(⟨2, ['t'], ['u'], 2, true⟩ : PullRequest),
        ⟨1, ['t'], ['u'], 1, true⟩].map (fun pr => pr.number))
        = ns.filter (fun n =>
            ((fun n => (⟨n, ['t'], ['u'], n, true⟩ : PullRequest)) n).merged)) :=
  ⟨fun n => rfl,
    (merged_pull_requests_order_amended (("x a\ny b").toList)
      (("a refs/pull/2/head\nb refs/pull/1/head").toList)
      (fun _ => ['z']) (fun n => ⟨n, ['t'], ['u'], n, true⟩)
      (fun n => rfl)).1
      [⟨2, ['t'], ['u'], 2, true⟩, ⟨1, ['t'], ['u'], 1, true⟩] (by decide)⟩

/-- Claim C4 — when the detector yields the empty merged-set, the run logs
the no-commits message and stops: the trace is exactly that log line, and
contains neither the locator query nor any create/update call. -/
theorem cli_main_empty_noop
    (logOut lsOut : List Char) (mbase : List Char → List Char)
    (gp : Nat → PullRequest) (queryResult : List PullRequest)
    (h : merged_pull_requests logOut lsOut mbase gp = some []) :
    cli_main logOut lsOut mbase gp queryResult = some [RunAction.logNoCommits] ∧
    ∀ acts, cli_main logOut lsOut mbase gp queryResult = some acts →
      RunAction.queryReleasePR ∉ acts ∧ RunAction.createPR ∉ acts ∧
        RunAction.updatePR ∉ acts := by
  have hmain : cli_main logOut lsOut mbase gp queryResult = some [RunAction.logNoCommits] := by
    rw [cli_main, h]
    rfl
  refine ⟨hmain, ?_⟩
  intro acts hacts
  rw [hmain] at hacts
  rw [← Option.some.inj hacts]
  refine ⟨?_, ?_, ?_⟩ <;> decide

/-- Witness for C4: empty git log output, so the detector finds nothing. -/
theorem cli_main_empty_noop_witness :
    cli_main [] [] (fun _ => []) (fun n => ⟨n, ['t'], ['u'], 0, true⟩) []
      = some [RunAction.logNoCommits] ∧
    ∀ acts, cli_main [] [] (fun _ => []) (fun n => ⟨n, ['t'], ['u'], 0, true⟩) []
        = some acts →
      RunAction.queryReleasePR ∉ acts ∧ RunAction.createPR ∉ acts ∧
        RunAction.updatePR ∉ acts :=
  cli_main_empty_noop [] [] (fun _ => []) (fun n => ⟨n, ['t'], ['u'], 0, true⟩) []
    (by decide)
